import Mathlib

/-!
# Verification of the hilink-api SCRAM authentication core

A shallow embedding of the repository's SCRAM login code:

* `HwScramAuth` (HwScramAuth.ts) — key derivation and proof calculation on
  top of CryptoJS primitives (PBKDF2, HMAC-SHA256, SHA-256, hex and UTF-8
  codecs).  The CryptoJS primitives are external library code; they are
  embedded here as the standard algorithms they implement, working over
  byte lists (`List Nat`, each entry `< 256`) with 32-bit words represented
  as `Nat` reduced mod `2^32`.  CryptoJS's `HmacSHA256(message, key)`
  argument order — message first, key second — is preserved at every call
  site by passing the key first to `hmacSHA256 key msg` with the arguments
  swapped exactly as the TypeScript does.
* `HwApi.login` (HwApi.ts) — the promise chain driving the protocol,
  embedded as a function of the network responses it consumes plus the
  `window.localStorage` contents it may write.

Methods of the TypeScript class that can assign instance fields are embedded
in state-passing style, returning the value together with the post-call
object, so frame properties about them are expressible.
-/

/-! ## 32-bit words and byte/word conversions -/

/-- Reduce to an unsigned 32-bit word, as JavaScript's `>>> 0` coercion does
for the bitwise results CryptoJS stores in `WordArray.words`. -/
def w32 (n : Nat) : Nat := n % 4294967296

/-- Right-rotate a 32-bit word by `k` (for `0 < k < 32`). -/
def rotr (k x : Nat) : Nat := w32 (x / 2 ^ k + x % 2 ^ k * 2 ^ (32 - k))

/-- Pack bytes into 32-bit words, big-endian, exactly as CryptoJS lays bytes
into `WordArray.words` (byte `i` lands in bits `24 - (i % 4) * 8` of word
`i / 4`); a trailing partial group fills the high-order bytes of its word. -/
def bytesToWords : List Nat → List Nat
  | [] => []
  | [a] => [a * 16777216]
  | [a, b] => [a * 16777216 + b * 65536]
  | [a, b, c] => [a * 16777216 + b * 65536 + c * 256]
  | a :: b :: c :: d :: rest =>
      (a * 16777216 + b * 65536 + c * 256 + d) :: bytesToWords rest

/-- Unpack 32-bit words into bytes, big-endian (4 bytes per word). -/
def wordsToBytes : List Nat → List Nat
  | [] => []
  | w :: ws =>
      w / 16777216 % 256 :: w / 65536 % 256 :: w / 256 % 256 :: w % 256 ::
        wordsToBytes ws

/-- A 32-bit big-endian byte encoding of a counter, as PBKDF2 appends to the
salt for each block index. -/
def be32 (n : Nat) : List Nat :=
  [n / 16777216 % 256, n / 65536 % 256, n / 256 % 256, n % 256]

/-! ## Hex codec (CryptoJS `enc.Hex`) -/

/-- The value of one hex digit, accepting both cases as JavaScript's
`parseInt(-, 16)` does. -/
def hexDigitVal (c : Char) : Option Nat :=
  if 48 ≤ c.toNat ∧ c.toNat ≤ 57 then some (c.toNat - 48)
  else if 97 ≤ c.toNat ∧ c.toNat ≤ 102 then some (c.toNat - 87)
  else if 65 ≤ c.toNat ∧ c.toNat ≤ 70 then some (c.toNat - 55)
  else none

/-- The lowercase hex digit for a value below 16, as `Number.toString(16)`
produces in CryptoJS `Hex.stringify`. -/
def hexDigitChar (d : Nat) : Char :=
  if d < 10 then Char.ofNat (48 + d) else Char.ofNat (87 + d)

/-- Hex-encode bytes, two lowercase digits per byte (CryptoJS
`Hex.stringify`: high nibble then low nibble). -/
def toHexChars : List Nat → List Char
  | [] => []
  | b :: bs => hexDigitChar (b / 16 % 16) :: hexDigitChar (b % 16) :: toHexChars bs

/-- Hex encoding of bytes as a string — `WordArray.toString()` in CryptoJS. -/
def toHex (bs : List Nat) : String := String.mk (toHexChars bs)

/-- Hex-decode a character list two digits per byte (CryptoJS `Hex.parse`).
On malformed input it follows JavaScript `parseInt` prefix semantics for a
two-character chunk: a valid first digit alone contributes its own value, a
chunk with no valid leading digit contributes 0 (`NaN` OR-ed in as 0). -/
def hexDecodeChars : List Char → List Nat
  | [] => []
  | [c] => [(hexDigitVal c).getD 0]
  | c1 :: c2 :: rest =>
      (match hexDigitVal c1, hexDigitVal c2 with
        | some d1, some d2 => 16 * d1 + d2
        | some d1, none => d1
        | none, _ => 0) :: hexDecodeChars rest

/-- Hex-decode a string to bytes. -/
def hexDecode (s : String) : List Nat := hexDecodeChars s.data

/-- A well-formed hex string: even length, all hex digits. -/
def isHexStr (s : String) : Bool :=
  s.data.length % 2 == 0 && s.data.all (fun c => (hexDigitVal c).isSome)

/-! ## UTF-8 codec (CryptoJS `enc.Utf8`) -/

/-- UTF-8 encoding of one unicode scalar value. -/
def utf8Char (n : Nat) : List Nat :=
  if n < 128 then [n]
  else if n < 2048 then [192 + n / 64, 128 + n % 64]
  else if n < 65536 then [224 + n / 4096, 128 + n / 64 % 64, 128 + n % 64]
  else [240 + n / 262144, 128 + n / 4096 % 64, 128 + n / 64 % 64, 128 + n % 64]

/-- UTF-8 encoding of a string, the byte view CryptoJS takes of every string
argument (password, HMAC key string, context label). -/
def utf8Bytes (s : String) : List Nat :=
  (s.data.map (fun c => utf8Char c.toNat)).foldr (fun a b => a ++ b) []

/-! ## SHA-256 -/

/-- The SHA-256 choose function over 32-bit words (`~x` taken as XOR with the
all-ones word). -/
def shaCh (x y z : Nat) : Nat := (x &&& y) ^^^ ((x ^^^ 4294967295) &&& z)

/-- The SHA-256 majority function. -/
def shaMaj (x y z : Nat) : Nat := (x &&& y) ^^^ (x &&& z) ^^^ (y &&& z)

/-- SHA-256 big sigma 0. -/
def bigSigma0 (x : Nat) : Nat := rotr 2 x ^^^ rotr 13 x ^^^ rotr 22 x

/-- SHA-256 big sigma 1. -/
def bigSigma1 (x : Nat) : Nat := rotr 6 x ^^^ rotr 11 x ^^^ rotr 25 x

/-- SHA-256 small sigma 0. -/
def smallSigma0 (x : Nat) : Nat := rotr 7 x ^^^ rotr 18 x ^^^ x / 8

/-- SHA-256 small sigma 1. -/
def smallSigma1 (x : Nat) : Nat := rotr 17 x ^^^ rotr 19 x ^^^ x / 1024

/-- The 64 SHA-256 round constants. -/
def sha256K : List Nat :=
  [1116352408, 1899447441, 3049323471, 3921009573,
   961987163, 1508970993, 2453635748, 2870763221,
   3624381080, 310598401, 607225278, 1426881987,
   1925078388, 2162078206, 2614888103, 3248222580,
   3835390401, 4022224774, 264347078, 604807628,
   770255983, 1249150122, 1555081692, 1996064986,
   2554220882, 2821834349, 2952996808, 3210313671,
   3336571891, 3584528711, 113926993, 338241895,
   666307205, 773529912, 1294757372, 1396182291,
   1695183700, 1986661051, 2177026350, 2456956037,
   2730485921, 2820302411, 3259730800, 3345764771,
   3516065817, 3600352804, 4094571909, 275423344,
   430227734, 506948616, 659060556, 883997877,
   958139571, 1322822218, 1537002063, 1747873779,
   1955562222, 2024104815, 2227730452, 2361852424,
   2428436474, 2756734187, 3204031479, 3329325298]

/-- The SHA-256 working state: eight 32-bit words. -/
structure Sha256State where
  a : Nat
  b : Nat
  c : Nat
  d : Nat
  e : Nat
  f : Nat
  g : Nat
  h : Nat

/-- The words of a SHA-256 state in emission order. -/
def stateWords (s : Sha256State) : List Nat :=
  [s.a, s.b, s.c, s.d, s.e, s.f, s.g, s.h]

/-- The SHA-256 initial hash value. -/
def sha256Init : Sha256State :=
  ⟨1779033703, 3144134277, 1013904242, 2773480762,
   1359893119, 2600822924, 528734635, 1541459225⟩

/-- One SHA-256 round: `kw` is the round constant plus the scheduled word. -/
def sha256Round (st : Sha256State) (kw : Nat) : Sha256State :=
  let T1 := w32 (st.h + bigSigma1 st.e + shaCh st.e st.f st.g + kw)
  let T2 := w32 (bigSigma0 st.a + shaMaj st.a st.b st.c)
  ⟨w32 (T1 + T2), st.a, st.b, st.c, w32 (st.d + T1), st.e, st.f, st.g⟩

/-- Extend a message schedule by one word. -/
def schedNext (ws : List Nat) : List Nat :=
  ws ++ [w32 (smallSigma1 (ws.getD (ws.length - 2) 0) + ws.getD (ws.length - 7) 0
       + smallSigma0 (ws.getD (ws.length - 15) 0) + ws.getD (ws.length - 16) 0)]

/-- The full 64-word message schedule from a block's 16 words. -/
def schedule (ws : List Nat) : List Nat :=
  (List.range 48).foldl (fun acc _ => schedNext acc) ws

/-- Compress one 512-bit block (given as its 64-word schedule) into the
running state. -/
def sha256Compress (s : Sha256State) (ws : List Nat) : Sha256State :=
  let t := (List.range 64).foldl
    (fun st i => sha256Round st (w32 (sha256K.getD i 0 + ws.getD i 0))) s
  ⟨w32 (s.a + t.a), w32 (s.b + t.b), w32 (s.c + t.c), w32 (s.d + t.d),
   w32 (s.e + t.e), w32 (s.f + t.f), w32 (s.g + t.g), w32 (s.h + t.h)⟩

/-- SHA-256 padding: a 0x80 byte, zeros to 56 mod 64, then the bit length as
a 64-bit big-endian integer. -/
def sha256Pad (msg : List Nat) : List Nat :=
  let L := msg.length
  msg ++ [128] ++ List.replicate ((119 - L % 64) % 64) 0 ++
    [8 * L / 72057594037927936 % 256, 8 * L / 281474976710656 % 256,
     8 * L / 1099511627776 % 256, 8 * L / 4294967296 % 256,
     8 * L / 16777216 % 256, 8 * L / 65536 % 256, 8 * L / 256 % 256,
     8 * L % 256]

/-- SHA-256 of a byte list, yielding the 32 digest bytes. -/
def sha256Bytes (msg : List Nat) : List Nat :=
  let padded := sha256Pad msg
  let blocks := (List.range (padded.length / 64)).map
    (fun i => (padded.drop (64 * i)).take 64)
  wordsToBytes (stateWords (blocks.foldl
    (fun s b => sha256Compress s (schedule (bytesToWords b))) sha256Init))

/-! ## HMAC-SHA256 and PBKDF2 (CryptoJS `HmacSHA256`, `PBKDF2`) -/

/-- HMAC key normalisation: hash keys longer than the 64-byte block, then
zero-pad to the block length. -/
def hmacKeyNorm (key : List Nat) : List Nat :=
  let k := if 64 < key.length then sha256Bytes key else key
  k ++ List.replicate (64 - k.length) 0

/-- HMAC-SHA256 over bytes.  CryptoJS exposes this as
`HmacSHA256(message, key)`; call sites below keep that argument order by
writing `hmacSHA256 key message` with the operands swapped exactly as the
TypeScript source passes them. -/
def hmacSHA256 (key msg : List Nat) : List Nat :=
  let k := hmacKeyNorm key
  sha256Bytes ((k.map (fun b => b ^^^ 92)) ++
    sha256Bytes ((k.map (fun b => b ^^^ 54)) ++ msg))

/-- One PBKDF2-HMAC-SHA256 block `F(P, S, c, i)`: `U1 = HMAC(P, S || INT(i))`,
`U_j = HMAC(P, U_(j-1))`, XOR-ed together over `c` rounds (CryptoJS runs the
loop `c - 1` times after the first round). -/
def pbkdf2Block (pwd salt : List Nat) (iters blockIdx : Nat) : List Nat :=
  let u1 := hmacSHA256 pwd (salt ++ be32 blockIdx)
  ((List.range (iters - 1)).foldl
    (fun p _ =>
      let u := hmacSHA256 pwd p.1
      (u, List.zipWith (fun x y => x ^^^ y) p.2 u))
    (u1, u1)).2

/-- PBKDF2-HMAC-SHA256 as CryptoJS computes it: concatenate blocks until
`keySize` 32-bit words are produced, then truncate to `keySize` words. -/
def pbkdf2 (pwd salt : List Nat) (iters keySize : Nat) : List Nat :=
  (((List.range ((keySize + 7) / 8)).map
      (fun i => pbkdf2Block pwd salt iters (i + 1))).foldr
    (fun a b => a ++ b) []).take (4 * keySize)

/-! ## HwScramAuth (HwScramAuth.ts) -/

/-- The `HwScramAuth` object state: the constructor argument `pwd` plus the
fields `setParams` assigns.  In TypeScript the latter are `undefined` until
`setParams` runs; they are modelled as empty-string / zero defaults, and the
claims about proof calculation quantify over states with the parameters
installed. -/
structure HwScramAuth where
  pwd : String
  clientNonce : String
  iters : Nat
  salt : String
  serverNonce : String
  sigSecret : String

/-- The `KEYSIZE` constant: 8 words = 32 bytes of PBKDF2 output. -/
def HwScramAuth.KEYSIZE : Nat := 8

/-- `new HwScramAuth(pwd)`: only `pwd` is assigned by the constructor. -/
def HwScramAuth.new (pwd : String) : HwScramAuth :=
  ⟨pwd, "", 0, "", "", ""⟩

/-- `setParams(cNonce, sNonce, salt, iters)`: installs the SCRAM parameters
and the signature secret `cNonce + ',' + sNonce + ',' + sNonce`. -/
def HwScramAuth.setParams (a : HwScramAuth) (cNonce sNonce salt : String)
    (iters : Nat) : HwScramAuth :=
  { a with
    clientNonce := cNonce
    iters := iters
    salt := salt
    serverNonce := sNonce
    sigSecret := cNonce ++ "," ++ sNonce ++ "," ++ sNonce }

/-- `deriveKey(hmacKey)`: PBKDF2 of the password over the hex-decoded salt
(`CryptoJS.enc.Hex.parse(this.salt)`) with SHA-256 and `KEYSIZE` words of
output, then `HmacSHA256(saltedPwd, hmacKey)` — salted secret as message,
`hmacKey` as key. -/
def HwScramAuth.deriveKey (a : HwScramAuth) (hmacKey : String) : List Nat :=
  let saltedPwd := pbkdf2 (utf8Bytes a.pwd) (hexDecode a.salt) a.iters
    HwScramAuth.KEYSIZE
  hmacSHA256 (utf8Bytes hmacKey) saltedPwd

/-- `calcProof()`: client key, stored key = SHA-256 of it, signature =
`HmacSHA256(storedKey, this.sigSecret)` (stored key as message, signature
secret as key), then the in-place loop XOR-ing `clientKey.words[i]` with
`signature.words[i]` for `i < clientKey.sigBytes / 4`, returned as the hex
string of the mutated word array.  The method assigns no field of `this`
(the XOR mutates only the `WordArray` freshly returned by `deriveKey`), so
the post-call object is returned unchanged. -/
def HwScramAuth.calcProof (a : HwScramAuth) : String × HwScramAuth :=
  let clientKey := a.deriveKey "Client Key"
  let storedKey := sha256Bytes clientKey
  let signature := hmacSHA256 (utf8Bytes a.sigSecret) storedKey
  let ckWords := bytesToWords clientKey
  let sigWords := bytesToWords signature
  let mutated := (List.range ckWords.length).map
    (fun i => if i < clientKey.length / 4
      then ckWords.getD i 0 ^^^ sigWords.getD i 0
      else ckWords.getD i 0)
  (toHex ((wordsToBytes mutated).take clientKey.length), a)

/-- `calcServerProof()`: `HmacSHA256(serverKey, this.sigSecret)` — derived
server key as message, signature secret as key — hex-encoded.  No field of
`this` is assigned. -/
def HwScramAuth.calcServerProof (a : HwScramAuth) : String × HwScramAuth :=
  let serverKey := a.deriveKey "Server Key"
  let signature := hmacSHA256 (utf8Bytes a.sigSecret) serverKey
  (toHex signature, a)

/-- `calcPubSig(key)`: re-parse the derived server key from its hex string,
hex-decode the supplied public key, and return
`HmacSHA256(publicKey, serverKey)` — public key as message, server key as
key — hex-encoded.  No field of `this` is assigned. -/
def HwScramAuth.calcPubSig (a : HwScramAuth) (key : String) :
    String × HwScramAuth :=
  let serverKeyD := a.deriveKey "Server Key"
  let serverKey := hexDecode (toHex serverKeyD)
  let publicKey := hexDecode key
  let signature := hmacSHA256 serverKey publicKey
  (toHex signature, a)

/-! ## HwApi.login (HwApi.ts)

The login promise chain is embedded as a function of the data the network
hands each phase.  The HTTP transport and XML parser are the out-of-scope
collaborators; what they deliver to the chain's callbacks is collected in
`NetEnv`.  `window.localStorage` is modelled as the pair of keys the chain
can write.  Each `rej(new Error(...))` / `throw new Error(...)` site becomes
a `ChainResult.failed` carrying the exact message string; where the source
calls `rej` and then keeps running (the missing `return` after the rate-limit
and parse-error rejections), the first settlement wins in JavaScript, so the
embedding stops at the first rejection.  On the success path the source
writes localStorage and reports success (it never resolves the last promise,
but all its observable effects have happened), embedded as
`ChainResult.verified` with the final verification token. -/

/-- The phase-one XML body as the parser exposes it: `error.waittime` when an
`error` element is present, else the `response` fields. -/
structure Phase1Body where
  errorWaittime : Option String
  servernonce : String
  salt : String
  iterations : String

/-- The phase-two XML body's `response` fields. -/
structure Phase2Body where
  serversignature : String
  rsapubkeysignature : String
  rsan : String
  rsae : String

/-- Everything the network delivers to one run of the chain.  The two
verification-token fields are the header lookups
`headers['__requestverificationtoken']` and
`headers['__requestverificationtokenone']` (axios lower-cases response
header names, which is what makes the lookup case-insensitive); `none` means
the header is absent.  The parse-error fields model `xml2js` handing the
callback a non-null `err`. -/
structure NetEnv where
  initOk : Bool
  serverToken : String
  phase1VeriToken : Option String
  phase1ParseErr : Option String
  phase1Body : Phase1Body
  phase2VeriTokenOne : Option String
  phase2ParseErr : Option String
  phase2Body : Phase2Body

/-- The two keys of `window.localStorage` the chain can write. -/
structure LocalStorage where
  rsan : Option String
  rsae : Option String

/-- The settled outcome of the protocol chain. -/
inductive ChainResult
  | verified (veriToken : String)
  | failed (msg : String)
deriving DecidableEq

/-- `parseInt(s, 10)` on the canonical digit strings the device sends. -/
def parseDecimal (s : String) : Nat :=
  s.data.foldl (fun n c => n * 10 + (c.toNat - 48)) 0

/-- The scram object as it stands after the phase-one callback installs the
parameters extracted from the response. -/
def scramAfterPhase1 (pwd cNonce sNonce salt iterations : String) :
    HwScramAuth :=
  (HwScramAuth.new pwd).setParams cNonce sNonce salt
    (parseDecimal iterations)

/-- The promise chain of `login()`, phase by phase in source order:
session init, token fetch and phase-one POST (transport side effects),
verification-token header check, phase-one body parse (error element first,
then parse error, then parameter extraction and client proof), phase-two
POST, token-one header update, phase-two body parse, server-proof
comparison, public-key-signature comparison, and on full success the
localStorage writes.  The result is paired with the localStorage contents
after the run; every failure leaves the store untouched. -/
def loginChain (pwd user cNonce : String) (env : NetEnv)
    (store : LocalStorage) : ChainResult × LocalStorage :=
  if env.initOk then
    -- phase-one POST sent with header token[0].substring(32) and body
    -- username / firstnonce / mode=1; the request itself is transport.
    match env.phase1VeriToken with
    | none => (ChainResult.failed "Server did not supply verification token", store)
    | some veriToken =>
      match env.phase1Body.errorWaittime with
      | some waitTime =>
          (ChainResult.failed ("Too many incorrect login attempts, try again in "
            ++ waitTime ++ " minutes."), store)
      | none =>
        match env.phase1ParseErr with
        | some e => (ChainResult.failed e, store)
        | none =>
          let scram1 := scramAfterPhase1 pwd cNonce
            env.phase1Body.servernonce env.phase1Body.salt
            env.phase1Body.iterations
          let proofAndScram := scram1.calcProof
          let scram2 := proofAndScram.2
          -- phase-two POST sent with clientproof / finalnonce; transport.
          let veriToken2 := match env.phase2VeriTokenOne with
            | some t => t
            | none => veriToken
          match env.phase2ParseErr with
          | some e => (ChainResult.failed ("SCRAM auth failed. " ++ e), store)
          | none =>
            let spAndScram := scram2.calcServerProof
            let scram3 := spAndScram.2
            if spAndScram.1 = env.phase2Body.serversignature then
              let psAndScram := scram3.calcPubSig env.phase2Body.rsan
              if env.phase2Body.rsapubkeysignature = psAndScram.1 then
                (ChainResult.verified veriToken2,
                 { rsan := some env.phase2Body.rsan,
                   rsae := some env.phase2Body.rsae })
              else
                (ChainResult.failed "Server provided an invalid RSA public key.",
                 store)
            else
              (ChainResult.failed "Could not verify server identity.", store)
  else (ChainResult.failed "Session failed to initialize", store)

/-- What one call of `login()` produces: the value the function itself
returns, and the outcome the asynchronous chain later settles to. -/
structure LoginOutcome where
  returned : Option String
  chainResult : ChainResult
  store : LocalStorage

/-- `login()`: the synchronous body declares `veriToken` without an
initializer, registers the promise chain, and executes `return veriToken`
before any `.then` callback can run — promise callbacks are scheduled as
microtasks after the synchronous call returns, so the returned value is the
still-unassigned variable, while the chain settles later with the outcome
modelled by `loginChain`. -/
def login (pwd user cNonce : String) (env : NetEnv) (store : LocalStorage) :
    LoginOutcome :=
  let veriTokenAtReturn : Option String := none
  let settled := loginChain pwd user cNonce env store
  { returned := veriTokenAtReturn
    chainResult := settled.1
    store := settled.2 }

/-! ## Basic facts about the byte/word codecs -/

theorem wordsToBytes_length (ws : List Nat) :
    (wordsToBytes ws).length = 4 * ws.length := by
  induction ws with
  | nil => rfl
  | cons w ws ih => simp [wordsToBytes, ih]; omega

theorem mem_wordsToBytes_lt (ws : List Nat) :
    ∀ b ∈ wordsToBytes ws, b < 256 := by
  induction ws with
  | nil => intro b hb; simp [wordsToBytes] at hb
  | cons w ws ih =>
      intro b hb
      simp only [wordsToBytes, List.mem_cons] at hb
      rcases hb with h | h | h | h | h
      all_goals first
        | (subst h; exact Nat.mod_lt _ (by norm_num))
        | exact ih b h

theorem bytesToWords_length (bs : List Nat) :
    (bytesToWords bs).length = (bs.length + 3) / 4 := by
  induction bs using bytesToWords.induct with
  | case1 => rfl
  | case2 a => simp [bytesToWords]
  | case3 a b => simp [bytesToWords]
  | case4 a b c => simp [bytesToWords]
  | case5 a b c d rest ih => simp [bytesToWords, ih]; omega

theorem mem_bytesToWords_lt (bs : List Nat) (hb : ∀ b ∈ bs, b < 256) :
    ∀ w ∈ bytesToWords bs, w < 4294967296 := by
  induction bs using bytesToWords.induct with
  | case1 => intro w hw; simp [bytesToWords] at hw
  | case2 a =>
      intro w hw
      simp only [bytesToWords, List.mem_singleton] at hw
      have := hb a (by simp)
      omega
  | case3 a b =>
      intro w hw
      simp only [bytesToWords, List.mem_singleton] at hw
      have := hb a (by simp)
      have := hb b (by simp)
      omega
  | case4 a b c =>
      intro w hw
      simp only [bytesToWords, List.mem_singleton] at hw
      have := hb a (by simp)
      have := hb b (by simp)
      have := hb c (by simp)
      omega
  | case5 a b c d rest ih =>
      intro w hw
      simp only [bytesToWords, List.mem_cons] at hw
      rcases hw with h | h
      · have := hb a (by simp)
        have := hb b (by simp)
        have := hb c (by simp)
        have := hb d (by simp)
        omega
      · exact ih (fun x hx => hb x (by simp [hx])) w h

theorem bytesToWords_wordsToBytes (ws : List Nat)
    (h : ∀ w ∈ ws, w < 4294967296) :
    bytesToWords (wordsToBytes ws) = ws := by
  induction ws with
  | nil => rfl
  | cons w ws ih =>
      have hw := h w (by simp)
      simp only [wordsToBytes, bytesToWords]
      rw [ih (fun x hx => h x (by simp [hx]))]
      congr 1
      omega

theorem wordsToBytes_bytesToWords (bs : List Nat)
    (h4 : bs.length % 4 = 0) (hb : ∀ b ∈ bs, b < 256) :
    wordsToBytes (bytesToWords bs) = bs := by
  induction bs using bytesToWords.induct with
  | case1 => rfl
  | case2 a => simp at h4
  | case3 a b => simp at h4
  | case4 a b c => simp at h4
  | case5 a b c d rest ih =>
      have ha := hb a (by simp)
      have hbb := hb b (by simp)
      have hc := hb c (by simp)
      have hd := hb d (by simp)
      have hrest : rest.length % 4 = 0 := by
        simp only [List.length_cons] at h4; omega
      simp only [bytesToWords, wordsToBytes]
      rw [ih hrest (fun x hx => hb x (by simp [hx]))]
      simp only [List.cons.injEq]
      exact ⟨by omega, by omega, by omega, by omega, trivial⟩

/-! ## Digest shapes -/

theorem sha256Bytes_length (msg : List Nat) : (sha256Bytes msg).length = 32 := by
  simp [sha256Bytes, wordsToBytes_length, stateWords]

theorem mem_sha256Bytes_lt (msg : List Nat) : ∀ b ∈ sha256Bytes msg, b < 256 := by
  intro b hb
  exact mem_wordsToBytes_lt _ b hb

theorem hmacSHA256_length (key msg : List Nat) :
    (hmacSHA256 key msg).length = 32 := by
  simp [hmacSHA256, sha256Bytes_length]

theorem mem_hmacSHA256_lt (key msg : List Nat) :
    ∀ b ∈ hmacSHA256 key msg, b < 256 := by
  intro b hb
  exact mem_sha256Bytes_lt _ b hb

theorem deriveKey_length (a : HwScramAuth) (k : String) :
    (a.deriveKey k).length = 32 := by
  simp [HwScramAuth.deriveKey, hmacSHA256_length]

theorem mem_deriveKey_lt (a : HwScramAuth) (k : String) :
    ∀ b ∈ a.deriveKey k, b < 256 := by
  intro b hb
  exact mem_hmacSHA256_lt _ _ b hb

theorem pbkdf2Block_length (pwd salt : List Nat) (iters blockIdx : Nat) :
    (pbkdf2Block pwd salt iters blockIdx).length = 32 := by
  have aux : ∀ (l : List Nat) (p : List Nat × List Nat),
      p.1.length = 32 → p.2.length = 32 →
      ((l.foldl (fun p _ =>
          let u := hmacSHA256 pwd p.1
          (u, List.zipWith (fun x y => x ^^^ y) p.2 u)) p).2).length = 32 := by
    intro l
    induction l with
    | nil => intro p h1 h2; exact h2
    | cons x xs ih =>
        intro p h1 h2
        refine ih _ (hmacSHA256_length _ _) ?_
        simp [List.length_zipWith, h2, hmacSHA256_length]
  exact aux _ _ (hmacSHA256_length _ _) (hmacSHA256_length _ _)

/-! ## Hex round trip -/

theorem toHexChars_length (bs : List Nat) :
    (toHexChars bs).length = 2 * bs.length := by
  induction bs with
  | nil => rfl
  | cons b bs ih => simp [toHexChars, ih]; omega

theorem toHex_length (bs : List Nat) : (toHex bs).length = 2 * bs.length := by
  simpa [toHex, String.length] using toHexChars_length bs

theorem hexDigitVal_hexDigitChar : ∀ d, d < 16 →
    hexDigitVal (hexDigitChar d) = some d := by decide

theorem hexDecode_toHex (bs : List Nat) (hb : ∀ b ∈ bs, b < 256) :
    hexDecode (toHex bs) = bs := by
  show hexDecodeChars (toHexChars bs) = bs
  induction bs with
  | nil => rfl
  | cons b bs ih =>
      have hblt := hb b (by simp)
      have h1 : b / 16 % 16 < 16 := Nat.mod_lt _ (by norm_num)
      have h2 : b % 16 < 16 := Nat.mod_lt _ (by norm_num)
      simp only [toHexChars, hexDecodeChars,
        hexDigitVal_hexDigitChar _ h1, hexDigitVal_hexDigitChar _ h2]
      rw [ih (fun x hx => hb x (by simp [hx]))]
      congr 1
      omega

/-! ## The word-wise XOR of `calcProof` -/

/-- Word-wise XOR of two byte strings: pack each into 32-bit big-endian
words, XOR corresponding words over the full common length, unpack back to
bytes.  This is the specification-level description of the loop in
`calcProof`. -/
def xorWordsBE (x y : List Nat) : List Nat :=
  wordsToBytes (List.zipWith (fun u v => u ^^^ v) (bytesToWords x) (bytesToWords y))

theorem range_map_xor (n : Nat) (xs ys : List Nat)
    (hx : xs.length = n) (hy : ys.length = n) :
    (List.range n).map
        (fun i => if i < n then xs.getD i 0 ^^^ ys.getD i 0 else xs.getD i 0)
      = List.zipWith (fun u v => u ^^^ v) xs ys := by
  induction n generalizing xs ys with
  | zero =>
      obtain rfl : xs = [] := List.length_eq_zero.mp hx
      obtain rfl : ys = [] := List.length_eq_zero.mp hy
      rfl
  | succ n ih =>
      cases xs with
      | nil => simp at hx
      | cons x xs =>
          cases ys with
          | nil => simp at hy
          | cons y ys =>
              have hx' : xs.length = n := by simpa using hx
              have hy' : ys.length = n := by simpa using hy
              rw [List.range_succ_eq_map]
              simp only [List.map_cons, List.map_map, Function.comp_def,
                List.zipWith_cons_cons, Nat.succ_eq_add_one,
                List.getD_cons_succ, List.getD_cons_zero,
                Nat.add_lt_add_iff_right, Nat.zero_lt_succ, if_true]
              rw [ih xs ys hx' hy']

theorem zipWith_xor_cancel (xs ys : List Nat) (h : xs.length = ys.length) :
    List.zipWith (fun u v => u ^^^ v)
        (List.zipWith (fun u v => u ^^^ v) xs ys) ys = xs := by
  induction xs generalizing ys with
  | nil => simp
  | cons x xs ih =>
      cases ys with
      | nil => simp at h
      | cons y ys =>
          simp only [List.zipWith_cons_cons]
          rw [ih ys (by simpa using h)]
          rw [Nat.xor_cancel_right y x]

theorem xorWordsBE_length (x y : List Nat)
    (hx : x.length = 32) (hy : y.length = 32) :
    (xorWordsBE x y).length = 32 := by
  simp [xorWordsBE, wordsToBytes_length, List.length_zipWith,
    bytesToWords_length, hx, hy]

/-- The loop in `calcProof` computes exactly the word-wise big-endian XOR
of the full derived client key and the signature (shared by the claims
about `calcProof` and about the AuthMessage). -/
theorem calcProof_eq (a : HwScramAuth) :
    a.calcProof.1
      = toHex (xorWordsBE (a.deriveKey "Client Key")
          (hmacSHA256 (utf8Bytes a.sigSecret)
            (sha256Bytes (a.deriveKey "Client Key")))) := by
  have hck : (a.deriveKey "Client Key").length = 32 := deriveKey_length a _
  have hsig : (hmacSHA256 (utf8Bytes a.sigSecret)
      (sha256Bytes (a.deriveKey "Client Key"))).length = 32 :=
    hmacSHA256_length _ _
  have hw1 : (bytesToWords (a.deriveKey "Client Key")).length = 8 := by
    rw [bytesToWords_length, hck]
  have hw2 : (bytesToWords (hmacSHA256 (utf8Bytes a.sigSecret)
      (sha256Bytes (a.deriveKey "Client Key")))).length = 8 := by
    rw [bytesToWords_length, hsig]
  have hlen : (wordsToBytes (List.zipWith (fun u v => u ^^^ v)
      (bytesToWords (a.deriveKey "Client Key"))
      (bytesToWords (hmacSHA256 (utf8Bytes a.sigSecret)
        (sha256Bytes (a.deriveKey "Client Key")))))).length ≤ 32 := by
    rw [wordsToBytes_length, List.length_zipWith, hw1, hw2]
    simp
  simp only [HwScramAuth.calcProof, xorWordsBE, hck, hw1]
  simp only [show (32 : Nat) / 4 = 8 from rfl]
  rw [range_map_xor 8 _ _ hw1 hw2]
  rw [List.take_of_length_le hlen]

/-! ## Claim C1 -/

/-- C1: for every parameter set installed before the call, `calcProof`
computes clientKey = derive(..., "Client Key"), storedKey = SHA-256 of
clientKey, signature = HMAC-SHA256 with storedKey as message and the
installed AuthMessage (`sigSecret`) as key, and returns the hex encoding
of clientKey XOR signature, the XOR computed word-wise over 32-bit
big-endian words for the full 32-byte length. -/
theorem calcProof_spec (a : HwScramAuth) :
    a.calcProof.1
      = toHex (xorWordsBE (a.deriveKey "Client Key")
          (hmacSHA256 (utf8Bytes a.sigSecret)
            (sha256Bytes (a.deriveKey "Client Key"))))
    ∧ (xorWordsBE (a.deriveKey "Client Key")
        (hmacSHA256 (utf8Bytes a.sigSecret)
          (sha256Bytes (a.deriveKey "Client Key")))).length = 32 :=
  ⟨calcProof_eq a,
   xorWordsBE_length _ _ (deriveKey_length a _) (hmacSHA256_length _ _)⟩

/-! ## Claim C2 -/

/-- For `KEYSIZE = 8` words (32 bytes), CryptoJS PBKDF2 produces exactly
one block of the PBKDF2-HMAC-SHA256 function `F(P, S, c, 1)`. -/
theorem pbkdf2_eq_single_block (pwd salt : List Nat) (iters : Nat) :
    pbkdf2 pwd salt iters 8 = pbkdf2Block pwd salt iters 1 := by
  have h : (pbkdf2Block pwd salt iters 1).length ≤ 32 :=
    le_of_eq (pbkdf2Block_length pwd salt iters 1)
  simp [pbkdf2, show List.range 1 = [0] from rfl, List.take_of_length_le h]

/-- C2: for every password, hex-encoded salt, positive iteration count and
label in the two fixed context strings, `deriveKey` computes
PBKDF2-HMAC-SHA256 of the password over the hex-decoded salt for the given
iteration count with a fixed 32-byte output — a single PBKDF2 block — and
returns HMAC-SHA256 of that salted secret as the message under the label
as the key. -/
theorem deriveKey_spec (pwd cNonce sNonce salt label : String) (iters : Nat)
    (hsalt : isHexStr salt = true) (hiters : 0 < iters)
    (hlabel : label = "Client Key" ∨ label = "Server Key") :
    ((HwScramAuth.new pwd).setParams cNonce sNonce salt iters).deriveKey label
      = hmacSHA256 (utf8Bytes label)
          (pbkdf2Block (utf8Bytes pwd) (hexDecode salt) iters 1)
    ∧ (pbkdf2 (utf8Bytes pwd) (hexDecode salt) iters
        HwScramAuth.KEYSIZE).length = 32 := by
  constructor
  · simp [HwScramAuth.deriveKey, HwScramAuth.setParams, HwScramAuth.new,
      HwScramAuth.KEYSIZE, pbkdf2_eq_single_block]
  · rw [show HwScramAuth.KEYSIZE = 8 from rfl, pbkdf2_eq_single_block,
      pbkdf2Block_length]

/-- C2 witness: the hypotheses hold at salt "aabb", one iteration, label
"Client Key", and the conclusion follows by the theorem. -/
theorem deriveKey_spec_witness :
    isHexStr "aabb" = true ∧ 0 < 1
    ∧ (((HwScramAuth.new "admin").setParams "cn" "sn" "aabb" 1).deriveKey
          "Client Key"
        = hmacSHA256 (utf8Bytes "Client Key")
            (pbkdf2Block (utf8Bytes "admin") (hexDecode "aabb") 1 1)
      ∧ (pbkdf2 (utf8Bytes "admin") (hexDecode "aabb") 1
          HwScramAuth.KEYSIZE).length = 32) :=
  ⟨by decide, by decide,
   deriveKey_spec "admin" "cn" "sn" "aabb" "Client Key" 1 (by decide)
     (by decide) (Or.inl rfl)⟩

/-! ## Claim C3 -/

/-- C3 counterexample: with client nonce "a" and server nonce "b",
`setParams` installs the AuthMessage "a,b,b" — the nonces joined with
comma separators — not the plain concatenation "abb" the claim states. -/
theorem sigSecret_not_plain_concat :
    ((HwScramAuth.new "p").setParams "a" "b" "aabb" 100).sigSecret
      ≠ "a" ++ "b" ++ "b" := by decide

/-- C3 amended: for every client and server nonce passed to `setParams`,
the AuthMessage used as the HMAC key (CryptoJS's second argument) for both
the client and server proof signatures is clientNonce ++ "," ++
serverNonce ++ "," ++ serverNonce — comma-joined, with the server nonce
appearing exactly twice. -/
theorem sigSecret_comma_join (pwd cNonce sNonce salt : String) (iters : Nat) :
    ((HwScramAuth.new pwd).setParams cNonce sNonce salt iters).sigSecret
      = cNonce ++ "," ++ sNonce ++ "," ++ sNonce
    ∧ ((HwScramAuth.new pwd).setParams cNonce sNonce salt iters).calcServerProof.1
      = toHex (hmacSHA256
          (utf8Bytes (cNonce ++ "," ++ sNonce ++ "," ++ sNonce))
          (((HwScramAuth.new pwd).setParams cNonce sNonce salt iters).deriveKey
            "Server Key"))
    ∧ ((HwScramAuth.new pwd).setParams cNonce sNonce salt iters).calcProof.1
      = toHex (xorWordsBE
          (((HwScramAuth.new pwd).setParams cNonce sNonce salt iters).deriveKey
            "Client Key")
          (hmacSHA256
            (utf8Bytes (cNonce ++ "," ++ sNonce ++ "," ++ sNonce))
            (sha256Bytes
              (((HwScramAuth.new pwd).setParams cNonce sNonce salt
                iters).deriveKey "Client Key")))) :=
  ⟨rfl, rfl, calcProof_eq _⟩

/-! ## Claim C6 -/

/-- C6: for every device public key hex string, `calcPubSig` returns
HMAC-SHA256 with the derived "Server Key" as the HMAC key and the
hex-decoded public key as the message, while `calcServerProof` uses the
derived server key as the message and the AuthMessage as the key — the
roles swapped between the two. -/
theorem calcPubSig_roles (a : HwScramAuth) (key : String) :
    (a.calcPubSig key).1
      = toHex (hmacSHA256 (a.deriveKey "Server Key") (hexDecode key))
    ∧ a.calcServerProof.1
      = toHex (hmacSHA256 (utf8Bytes a.sigSecret)
          (a.deriveKey "Server Key")) := by
  constructor
  · simp only [HwScramAuth.calcPubSig]
    rw [hexDecode_toHex _ (mem_deriveKey_lt a _)]
  · rfl

/-! ## Claim C7 -/

/-- XOR of word lists below `2^32` stays below `2^32`. -/
theorem mem_zipWith_xor_lt (xs ys : List Nat)
    (hx : ∀ w ∈ xs, w < 4294967296) (hy : ∀ w ∈ ys, w < 4294967296) :
    ∀ w ∈ List.zipWith (fun u v => u ^^^ v) xs ys, w < 4294967296 := by
  induction xs generalizing ys with
  | nil => intro w hw; simp at hw
  | cons x xs ih =>
      cases ys with
      | nil => intro w hw; simp at hw
      | cons y ys =>
          intro w hw
          simp only [List.zipWith_cons_cons, List.mem_cons] at hw
          rcases hw with h | h
          · subst h
            have hx1 := hx x (by simp)
            have hy1 := hy y (by simp)
            have hpow : (4294967296 : Nat) = 2 ^ 32 := by norm_num
            rw [hpow] at hx1 hy1 ⊢
            exact Nat.xor_lt_two_pow hx1 hy1
          · exact ih ys (fun w hw => hx w (by simp [hw]))
              (fun w hw => hy w (by simp [hw])) w h

/-- C7: for every 32-byte clientKey and 32-byte signature, the word-wise
XOR is self-inverse: XOR-ing with the same signature again reproduces the
original clientKey bytes. -/
theorem xorWordsBE_self_inverse (ck sig : List Nat)
    (hck : ck.length = 32) (hsig : sig.length = 32)
    (hckb : ∀ b ∈ ck, b < 256) (hsigb : ∀ b ∈ sig, b < 256) :
    xorWordsBE (xorWordsBE ck sig) sig = ck := by
  have hcw := mem_bytesToWords_lt ck hckb
  have hsw := mem_bytesToWords_lt sig hsigb
  have hxw := mem_zipWith_xor_lt _ _ hcw hsw
  show wordsToBytes (List.zipWith _ (bytesToWords (wordsToBytes _)) _) = ck
  rw [bytesToWords_wordsToBytes _ hxw]
  rw [zipWith_xor_cancel _ _
    (by rw [bytesToWords_length, bytesToWords_length, hck, hsig])]
  exact wordsToBytes_bytesToWords ck (by rw [hck]) hckb

/-- C7 witness: the self-inverse law at a concrete pair of 32-byte
strings. -/
theorem xorWordsBE_self_inverse_witness :
    (List.range 32).length = 32 ∧ (List.replicate 32 171).length = 32
    ∧ (∀ b ∈ List.range 32, b < 256)
    ∧ (∀ b ∈ List.replicate 32 171, b < 256)
    ∧ xorWordsBE (xorWordsBE (List.range 32) (List.replicate 32 171))
        (List.replicate 32 171) = List.range 32 :=
  ⟨by decide, by decide, by decide, by decide,
   xorWordsBE_self_inverse _ _ (by decide) (by decide) (by decide)
     (by decide)⟩

/-! ## Claim C10 -/

/-- C10: none of the three proof methods changes any stored field of the
scram object — the in-place XOR in `calcProof` mutates only the word array
freshly derived in that call — so repeated calls, in any order, with the
same installed parameters return identical hex strings. -/
theorem proofFns_frame (a : HwScramAuth) (key : String) :
    a.calcProof.2 = a ∧ a.calcServerProof.2 = a ∧ (a.calcPubSig key).2 = a
    ∧ (a.calcServerProof.2).calcProof.1 = a.calcProof.1
    ∧ ((a.calcPubSig key).2).calcServerProof.1 = a.calcServerProof.1
    ∧ (a.calcProof.2).calcPubSig key = a.calcPubSig key
    ∧ ((a.calcProof.2).calcProof.2).calcProof.1 = a.calcProof.1 :=
  ⟨rfl, rfl, rfl, rfl, rfl, rfl, rfl⟩

/-! ## The login chain's behaviour -/

theorem calcProof_state (a : HwScramAuth) : a.calcProof.2 = a := rfl

theorem calcServerProof_state (a : HwScramAuth) : a.calcServerProof.2 = a := rfl

theorem calcPubSig_state (a : HwScramAuth) (k : String) :
    (a.calcPubSig k).2 = a := rfl

/-- When every phase succeeds and both comparisons hold, the chain verifies
with the phase-two token and persists the device key. -/
theorem loginChain_verified_of (pwd user cNonce : String) (env : NetEnv)
    (store : LocalStorage) (vt vtOne : String)
    (h1 : env.initOk = true) (h2 : env.phase1VeriToken = some vt)
    (h3 : env.phase1Body.errorWaittime = none)
    (h4 : env.phase1ParseErr = none) (h5 : env.phase2ParseErr = none)
    (h6 : env.phase2VeriTokenOne = some vtOne)
    (h7 : env.phase2Body.serversignature
        = (scramAfterPhase1 pwd cNonce env.phase1Body.servernonce
            env.phase1Body.salt env.phase1Body.iterations).calcServerProof.1)
    (h8 : env.phase2Body.rsapubkeysignature
        = ((scramAfterPhase1 pwd cNonce env.phase1Body.servernonce
            env.phase1Body.salt env.phase1Body.iterations).calcPubSig
            env.phase2Body.rsan).1) :
    loginChain pwd user cNonce env store
      = (ChainResult.verified vtOne,
         ⟨some env.phase2Body.rsan, some env.phase2Body.rsae⟩) := by
  obtain ⟨io, stk, p1v, p1e, ⟨ew, sn, sa, it⟩, p2v, p2e, ⟨ss, ps, rn, re⟩⟩ := env
  dsimp only at h1 h2 h3 h4 h5 h6 h7 h8 ⊢
  subst h1 h2 h3 h4 h5 h6
  simp only [loginChain, calcProof_state, calcServerProof_state,
    calcPubSig_state, h7, h8]
  simp

/-! ## Claim C4 -/

/-- C4: `login()` returns the verification-token variable as it stands
before the asynchronous chain has completed — `none`, independent of every
network response — even though there are response environments under which
the chain later verifies with a non-empty token. -/
theorem login_returns_stale (pwd user cNonce : String)
    (env env2 : NetEnv) (store store2 : LocalStorage) :
    (login pwd user cNonce env store).returned = none
    ∧ (login pwd user cNonce env store).returned
        = (login pwd user cNonce env2 store2).returned
    ∧ ∃ envS : NetEnv, ∃ vt : String,
        (login pwd user cNonce envS store).chainResult
          = ChainResult.verified vt
        ∧ vt ≠ ""
        ∧ (login pwd user cNonce envS store).returned ≠ some vt := by
  refine ⟨rfl, rfl,
    ⟨⟨true, "tok", some "vt1", none, ⟨none, "sn", "aabb", "1"⟩,
      some "vt2", none,
      ⟨(scramAfterPhase1 pwd cNonce "sn" "aabb" "1").calcServerProof.1,
       ((scramAfterPhase1 pwd cNonce "sn" "aabb" "1").calcPubSig "0123").1,
       "0123", "010001"⟩⟩, "vt2", ?_, by decide, by simp [login]⟩⟩
  have h := loginChain_verified_of pwd user cNonce
    ⟨true, "tok", some "vt1", none, ⟨none, "sn", "aabb", "1"⟩,
     some "vt2", none,
     ⟨(scramAfterPhase1 pwd cNonce "sn" "aabb" "1").calcServerProof.1,
      ((scramAfterPhase1 pwd cNonce "sn" "aabb" "1").calcPubSig "0123").1,
      "0123", "010001"⟩⟩
    store "vt1" "vt2" rfl rfl rfl rfl rfl rfl rfl rfl
  simp only [login]
  rw [h]

/-! ## Claim C9 -/

/-- C9: a phase-one response lacking the verification-token header (the
case-insensitive lookup yields nothing) fails the attempt with the
missing-token protocol error; the chain is a total function that stops
there, so it neither crashes nor continues to the next phase. -/
theorem missing_token_protocol_error (pwd user cNonce : String)
    (env : NetEnv) (store : LocalStorage)
    (h1 : env.initOk = true) (h2 : env.phase1VeriToken = none) :
    loginChain pwd user cNonce env store
      = (ChainResult.failed "Server did not supply verification token",
         store) := by
  obtain ⟨io, stk, p1v, p1e, p1b, p2v, p2e, p2b⟩ := env
  dsimp only at h1 h2
  subst h1 h2
  rfl

/-- C9 witness: a concrete phase-one response with no verification-token
header. -/
theorem missing_token_protocol_error_witness :
    loginChain "admin" "user" "cn"
      ⟨true, "tok", none, none, ⟨none, "sn", "aabb", "1"⟩, none, none,
       ⟨"", "", "", ""⟩⟩ ⟨none, none⟩
      = (ChainResult.failed "Server did not supply verification token",
         ⟨none, none⟩) :=
  missing_token_protocol_error "admin" "user" "cn" _ _ rfl rfl

/-! ## Claim C8 -/

/-- C8: a phase-one response whose XML body carries an error element with
waittime 5 fails the attempt with the rate-limit failure carrying the
wait-minutes value — the message is distinct from every other fixed
failure message of the chain, so the failure is the typed rate-limit one,
not a generic one. -/
theorem rate_limit_failure (pwd user cNonce : String) (env : NetEnv)
    (store : LocalStorage) (vt : String)
    (h1 : env.initOk = true) (h2 : env.phase1VeriToken = some vt)
    (h3 : env.phase1Body.errorWaittime = some "5") :
    loginChain pwd user cNonce env store
      = (ChainResult.failed
          "Too many incorrect login attempts, try again in 5 minutes.",
         store)
    ∧ ("Too many incorrect login attempts, try again in 5 minutes."
        ≠ "Session failed to initialize"
      ∧ "Too many incorrect login attempts, try again in 5 minutes."
        ≠ "Server did not supply verification token"
      ∧ "Too many incorrect login attempts, try again in 5 minutes."
        ≠ "Could not verify server identity."
      ∧ "Too many incorrect login attempts, try again in 5 minutes."
        ≠ "Server provided an invalid RSA public key.") := by
  refine ⟨?_, by decide, by decide, by decide, by decide⟩
  obtain ⟨io, stk, p1v, p1e, ⟨ew, sn, sa, it⟩, p2v, p2e, p2b⟩ := env
  dsimp only at h1 h2 h3
  subst h1 h2 h3
  rfl

/-- C8 witness: a concrete phase-one body with error waittime 5. -/
theorem rate_limit_failure_witness :
    loginChain "admin" "user" "cn"
      ⟨true, "tok", some "vt1", none, ⟨some "5", "sn", "aabb", "1"⟩, none,
       none, ⟨"", "", "", ""⟩⟩ ⟨none, none⟩
      = (ChainResult.failed
          "Too many incorrect login attempts, try again in 5 minutes.",
         ⟨none, none⟩) :=
  (rate_limit_failure "admin" "user" "cn" _ _ "vt1" rfl rfl rfl).1

/-! ## Claim C5 -/

/-- `calcPubSig` always returns a 64-character hex string. -/
theorem calcPubSig_length (a : HwScramAuth) (k : String) :
    ((a.calcPubSig k).1).length = 64 := by
  simp [HwScramAuth.calcPubSig, toHex_length, hmacSHA256_length]

/-- C5: when the phase-two response passes the server-proof comparison but
its rsapubkeysignature differs from the locally computed public-key
signature over rsan, the attempt fails with the invalid-public-key
identity error and the persisted TrustedDeviceKey is left unmodified; and
in general the store is modified only when both the server-proof and the
public-key-signature comparisons succeed. -/
theorem identity_mismatch (pwd user cNonce : String) (env : NetEnv)
    (store : LocalStorage) (vt : String)
    (h1 : env.initOk = true) (h2 : env.phase1VeriToken = some vt)
    (h3 : env.phase1Body.errorWaittime = none)
    (h4 : env.phase1ParseErr = none) (h5 : env.phase2ParseErr = none)
    (h6 : env.phase2Body.serversignature
        = (scramAfterPhase1 pwd cNonce env.phase1Body.servernonce
            env.phase1Body.salt env.phase1Body.iterations).calcServerProof.1)
    (h7 : env.phase2Body.rsapubkeysignature
        ≠ ((scramAfterPhase1 pwd cNonce env.phase1Body.servernonce
            env.phase1Body.salt env.phase1Body.iterations).calcPubSig
            env.phase2Body.rsan).1) :
    loginChain pwd user cNonce env store
      = (ChainResult.failed "Server provided an invalid RSA public key.",
         store)
    ∧ ∀ (env2 : NetEnv) (store2 : LocalStorage),
        (loginChain pwd user cNonce env2 store2).2 ≠ store2 →
        env2.phase2Body.serversignature
          = (scramAfterPhase1 pwd cNonce env2.phase1Body.servernonce
              env2.phase1Body.salt
              env2.phase1Body.iterations).calcServerProof.1
        ∧ env2.phase2Body.rsapubkeysignature
          = ((scramAfterPhase1 pwd cNonce env2.phase1Body.servernonce
              env2.phase1Body.salt env2.phase1Body.iterations).calcPubSig
              env2.phase2Body.rsan).1 := by
  constructor
  · obtain ⟨io, stk, p1v, p1e, ⟨ew, sn, sa, it⟩, p2v, p2e, ⟨ss, ps, rn, re⟩⟩ := env
    dsimp only at h1 h2 h3 h4 h5 h6 h7
    subst h1 h2 h3 h4 h5 h6
    simp only [loginChain, calcProof_state, calcServerProof_state,
      calcPubSig_state]
    simp only [if_true]
    rw [if_neg h7]
  · intro env2 store2 hne
    obtain ⟨io, stk, p1v, p1e, ⟨ew, sn, sa, it⟩, p2v, p2e, ⟨ss, ps, rn, re⟩⟩ := env2
    dsimp only at hne ⊢
    cases io with
    | false => simp [loginChain] at hne
    | true =>
      cases p1v with
      | none => simp [loginChain] at hne
      | some vtk =>
        cases ew with
        | some w => simp [loginChain] at hne
        | none =>
          cases p1e with
          | some e => simp [loginChain] at hne
          | none =>
            cases p2e with
            | some e => simp [loginChain] at hne
            | none =>
              by_cases hss : (scramAfterPhase1 pwd cNonce sn sa
                  it).calcServerProof.1 = ss
              · by_cases hps : ps = ((scramAfterPhase1 pwd cNonce sn sa
                    it).calcPubSig rn).1
                · exact ⟨hss.symm, hps⟩
                · simp [loginChain, calcProof_state, calcServerProof_state,
                    calcPubSig_state, hss, hps] at hne
              · simp [loginChain, calcProof_state, calcServerProof_state,
                  calcPubSig_state, hss] at hne

/-- C5 witness: a concrete phase-two response whose rsapubkeysignature
(the empty string) cannot match the 64-character computed signature, while
the server proof matches. -/
theorem identity_mismatch_witness :
    loginChain "admin" "user" "cn"
      ⟨true, "tok", some "vt1", none, ⟨none, "sn", "aabb", "1"⟩, none, none,
       ⟨(scramAfterPhase1 "admin" "cn" "sn" "aabb" "1").calcServerProof.1,
        "", "0123", "010001"⟩⟩ ⟨none, none⟩
      = (ChainResult.failed "Server provided an invalid RSA public key.",
         ⟨none, none⟩) :=
  (identity_mismatch "admin" "user" "cn" _ _ "vt1" rfl rfl rfl rfl rfl rfl
    (fun h => by
      have hl := congrArg String.length h
      rw [calcPubSig_length] at hl
      simp at hl)).1
